import Mathlib

/-!
Verification of the sentiment-processing core of `customer_feedback/lambda_func.py`.

The development shallowly embeds the Python module: strings are `String`
(lists of characters), Python floats are modelled as exact rationals `ℚ`,
DynamoDB tables are lists of records, and the external analysis-store write
(`Table.put_item`, which boto3 may fail with an exception) is modelled by a
caller-supplied fault predicate.  Regular-expression substitutions are
embedded as direct left-to-right scanning functions implementing exactly the
fixed patterns appearing in the source; each scan consumes at least one
character per step, so it is given the input's length as fuel, which is
always sufficient (the fuel-exhausted branches are unreachable and return
the remaining input unchanged).
-/

set_option allowUnsafeReducibility true

/- Batteries marks the `Rat` field operations `@[irreducible]`, which blocks
`decide`-style evaluation of concrete rational arithmetic; restore the
default reducibility so concrete runs of the embedded code reduce. -/
attribute [semireducible] Rat.add Rat.mul Rat.inv Rat.sub Rat.blt Rat.normalize

namespace Feedback

/-- ASCII lowercasing, as Python `str.lower()` acts on the ASCII range
(the pipeline's fixed lexicon and patterns are ASCII): `A`(65)–`Z`(90)
shift by 32 to `a`–`z`. -/
def pyLower (c : Char) : Char :=
  if 65 ≤ c.toNat ∧ c.toNat ≤ 90 then Char.ofNat (c.toNat + 32) else c

/-- Python string whitespace as used by `str.split()` / `str.strip()`:
space, tab, newline, carriage return, vertical tab, form feed. -/
def isPySpace (c : Char) : Bool :=
  c == ' ' || c == '\t' || c == '\n' || c == '\r' ||
  c == '\x0b' || c == '\x0c'

/-- Character class of the URL regex
`http[s]?://(?:[a-zA-Z]|[0-9]|[$-_@.&+]|[!*\\(\\),]|(?:%[0-9a-fA-F][0-9a-fA-F]))+`
in `preprocess_text`: the alternatives are `[a-zA-Z]`, `[0-9]`, the byte
range `$`(36)–`_`(95) (which subsumes `@.&+` and the leading `%` of `%hh`),
and `[!*\\(\\),]` whose members other than `!`(33) already lie in 36–95. -/
def urlChar (c : Char) : Bool :=
  decide ((97 ≤ c.toNat ∧ c.toNat ≤ 122) ∨ (65 ≤ c.toNat ∧ c.toNat ≤ 90) ∨
    (48 ≤ c.toNat ∧ c.toNat ≤ 57) ∨ (36 ≤ c.toNat ∧ c.toNat ≤ 95) ∨
    c.toNat = 33)

/-- `\w` of the `/u/\w+` and `/r/\w+` mention patterns (ASCII range). -/
def wordChar (c : Char) : Bool :=
  decide ((97 ≤ c.toNat ∧ c.toNat ≤ 122) ∨ (65 ≤ c.toNat ∧ c.toNat ≤ 90) ∨
    (48 ≤ c.toNat ∧ c.toNat ≤ 57) ∨ c.toNat = 95)

/-- After a scheme prefix, the regex's `(...)+` demands at least one class
character and then greedily consumes the maximal run; returns the rest. -/
def urlRun : List Char → Option (List Char)
  | c :: cs => if urlChar c then some (cs.dropWhile urlChar) else none
  | [] => none

/-- Try to match `http[s]?://(...)+` at the head of the input (the `[s]?`
branch is attempted first, exactly as the regex engine backtracks). -/
def tryURL (l : List Char) : Option (List Char) :=
  if ['h', 't', 't', 'p', 's', ':', '/', '/'].isPrefixOf l then urlRun (l.drop 8)
  else if ['h', 't', 't', 'p', ':', '/', '/'].isPrefixOf l then urlRun (l.drop 7)
  else none

/-- `re.sub(r'http[s]?://(...)+', '', text)`: left-to-right scan removing
each leftmost match; on no match at the current position the scan advances
one character. -/
def stripURLsF : Nat → List Char → List Char
  | 0, l => l
  | _ + 1, [] => []
  | fuel + 1, c :: cs =>
    match tryURL (c :: cs) with
    | some rest => stripURLsF fuel rest
    | none => c :: stripURLsF fuel cs

def stripURLs (l : List Char) : List Char := stripURLsF l.length l

/-- Maximal nonempty `\w+` run; returns the rest. -/
def wordRun : List Char → Option (List Char)
  | c :: cs => if wordChar c then some (cs.dropWhile wordChar) else none
  | [] => none

/-- Try to match `/u/\w+` (resp. `/r/\w+`) at the head of the input. -/
def tryMention (sig : Char) (l : List Char) : Option (List Char) :=
  if ['/', sig, '/'].isPrefixOf l then wordRun (l.drop 3) else none

/-- `re.sub(r'/u/\w+', '', text)` for `sig = 'u'` and
`re.sub(r'/r/\w+', '', text)` for `sig = 'r'`. -/
def stripMentionF (sig : Char) : Nat → List Char → List Char
  | 0, l => l
  | _ + 1, [] => []
  | fuel + 1, c :: cs =>
    match tryMention sig (c :: cs) with
    | some rest => stripMentionF sig fuel rest
    | none => c :: stripMentionF sig fuel cs

def stripMention (sig : Char) (l : List Char) : List Char :=
  stripMentionF sig l.length l

/-- Helper for the bold-markup regex `\*\*.*?\*\*`: from the position just
after an opening `**`, find the earliest closing `**` (non-greedy `.*?`)
with no newline in between (`.` does not match `\n`); returns the remainder
after the closing marker. -/
def findBoldClose : List Char → Option (List Char)
  | c1 :: c2 :: rest =>
    if c1 = '*' ∧ c2 = '*' then some rest
    else if c1 = '\n' then none
    else findBoldClose (c2 :: rest)
  | _ => none

/-- Try to match `\*\*.*?\*\*` at the head of the input. -/
def tryBold (l : List Char) : Option (List Char) :=
  if ['*', '*'].isPrefixOf l then findBoldClose (l.drop 2) else none

/-- `re.sub(r'\*\*.*?\*\*', '', text)`: remove each `**`-delimited span
(shortest close, not crossing a newline); where an opening `**` has no
close, the scan advances a single character, as `re` does. -/
def stripBoldF : Nat → List Char → List Char
  | 0, l => l
  | _ + 1, [] => []
  | fuel + 1, c :: cs =>
    match tryBold (c :: cs) with
    | some rest => stripBoldF fuel rest
    | none => c :: stripBoldF fuel cs

def stripBold (l : List Char) : List Char := stripBoldF l.length l

/-- `str.split()`: whitespace-delimited words, empty words dropped. -/
def pyWordsF : Nat → List Char → List (List Char)
  | 0, _ => []
  | _ + 1, [] => []
  | fuel + 1, c :: cs =>
    if isPySpace c then pyWordsF fuel cs
    else (c :: cs.takeWhile (fun d => !isPySpace d)) ::
      pyWordsF fuel (cs.dropWhile (fun d => !isPySpace d))

def pyWords (l : List Char) : List (List Char) := pyWordsF l.length l

/-- `' '.join(ws)`. -/
def joinWords : List (List Char) → List Char
  | [] => []
  | [w] => w
  | w :: w2 :: ws => w ++ ' ' :: joinWords (w2 :: ws)

/-- `' '.join(text.split())`: collapse whitespace runs, trim both ends. -/
def collapseWs (l : List Char) : List Char :=
  joinWords (pyWords l)

/-- `str.strip()`: drop leading and trailing whitespace. -/
def pyStrip (l : List Char) : List Char :=
  ((l.dropWhile isPySpace).reverse.dropWhile isPySpace).reverse

/-- `SentimentAnalyzer.preprocess_text`: empty-input guard, lowercase,
remove URLs, remove `/u/` mentions, remove `/r/` mentions, remove bold
spans, collapse whitespace — in that order. -/
def preprocess_text (text : String) : String :=
  if text = "" then ""
  else String.mk (collapseWs (stripBold (stripMention 'r' (stripMention 'u'
    (stripURLs (text.data.map pyLower))))))

example : preprocess_text "Check HTTPS://Example.com/x now" = "check now" := by decide
example : preprocess_text "ask /u/bob_1 on /r/aws  please" = "ask on please" := by decide
example : preprocess_text "a **bold text** b" = "a b" := by decide
example : preprocess_text "htt**x**p://a" = "http://a" := by decide
example : preprocess_text "http://a" = "" := by decide
example : preprocess_text "  Hello   WORLD \t\n" = "hello world" := by decide

/-! ## Rounding

Python's `round(x, d)` (banker's rounding: ties go to the even neighbor).
Every score reaching `round(_, 2)` is a sum of lexicon weights (one decimal
place) and every confidence reaching `round(_, 3)` has at most three decimal
places, so ties never arise on reachable values; the tie case is embedded
anyway for faithfulness. -/

def pyRoundInt (x : ℚ) : ℤ :=
  if x - x.floor < 1 / 2 then x.floor
  else if 1 / 2 < x - x.floor then x.floor + 1
  else if x.floor % 2 = 0 then x.floor else x.floor + 1

/-- `round(x, d)` on exact rationals. -/
def pyRound (d : Nat) (x : ℚ) : ℚ :=
  (pyRoundInt (x * 10 ^ d) : ℚ) / 10 ^ d

example : pyRound 3 (39 / 50) = 39 / 50 := by decide
example : pyRound 2 (14 / 5) = 14 / 5 := by decide
example : pyRoundInt (5 / 2) = 2 := by decide
example : pyRoundInt (7 / 2) = 4 := by decide

/-! ## Lexicon sentiment scorer (`SentimentAnalyzer`) -/

/-- `self.positive_keywords` (a Python `set`; only membership is used). -/
def positive_keywords : List String :=
  ["love", "amazing", "fantastic", "excellent", "great", "awesome",
   "perfect", "wonderful", "brilliant", "outstanding", "impressive",
   "helpful", "useful", "easy", "simple", "fast", "reliable",
   "recommend", "best", "good", "nice", "cool", "solid"]

/-- `self.negative_keywords`. -/
def negative_keywords : List String :=
  ["hate", "terrible", "awful", "horrible", "bad", "worst",
   "frustrated", "annoying", "broken", "useless", "slow",
   "expensive", "confusing", "difficult", "problems", "issues",
   "bug", "error", "fail", "crashed", "disappointing", "waste"]

/-- `self.intensifiers`: word → multiplier. -/
def intensifiers : List (String × ℚ) :=
  [("very", 3 / 2), ("extremely", 2), ("incredibly", 2),
   ("absolutely", 9 / 5), ("completely", 8 / 5), ("totally", 8 / 5)]

/-- Python `min`. -/
def pyMin (a b : ℚ) : ℚ := if a ≤ b then a else b

/-- Python `abs`. -/
def pyAbs (a : ℚ) : ℚ := if a < 0 then -a else a

/-- `base_weight`: 1.0, replaced by the intensifier's factor when the
previous word (`words[i-1]`, `none` at the first word) is an intensifier. -/
def baseWeightOf : Option (List Char) → ℚ
  | some p => (intensifiers.lookup (String.mk p)).getD 1
  | none => 1

/-- The scoring loop of `analyze_sentiment`: a positive-lexicon word adds
the base weight to the positive score and records `"+word"`, else a
negative-lexicon word adds it to the negative score and records `"-word"`.
Returns (positive_score, negative_score, detected_keywords) with keywords
in scan order. -/
def scoreWords : Option (List Char) → List (List Char) → ℚ × ℚ × List String
  | _, [] => (0, 0, [])
  | prev, w :: rest =>
    let base_weight := baseWeightOf prev
    let r := scoreWords (some w) rest
    if positive_keywords.contains (String.mk w) then
      (base_weight + r.1, r.2.1, String.mk ('+' :: w) :: r.2.2)
    else if negative_keywords.contains (String.mk w) then
      (r.1, base_weight + r.2.1, String.mk ('-' :: w) :: r.2.2)
    else (r.1, r.2.1, r.2.2)

structure SentimentResult where
  sentiment : String
  confidence : ℚ
  positive_score : ℚ
  negative_score : ℚ
  detected_keywords : List String
deriving Repr, DecidableEq

/-- Lines 117–139 of `analyze_sentiment`: classification and result
assembly from `(positive_score, negative_score, detected_keywords)` and the
token count.  The branches, in the source's order of precedence:
`total_score > 1.0` → POSITIVE, `total_score < -1.0` → NEGATIVE, both
scores positive → MIXED, else NEUTRAL; each rounds the confidence to 3 and
the scores to 2 decimal places and truncates keywords to 10. -/
def classify (sc : ℚ × ℚ × List String) (token_count : Nat) : SentimentResult :=
  let positive_score := sc.1
  let negative_score := sc.2.1
  let detected_keywords := sc.2.2
  let total_score := positive_score - negative_score
  if 1 < total_score then
    { sentiment := "POSITIVE",
      confidence := pyRound 3 (pyMin (95 / 100) (1 / 2 + total_score / 10)),
      positive_score := pyRound 2 positive_score,
      negative_score := pyRound 2 negative_score,
      detected_keywords := detected_keywords.take 10 }
  else if total_score < -1 then
    { sentiment := "NEGATIVE",
      confidence := pyRound 3 (pyMin (95 / 100) (1 / 2 + pyAbs total_score / 10)),
      positive_score := pyRound 2 positive_score,
      negative_score := pyRound 2 negative_score,
      detected_keywords := detected_keywords.take 10 }
  else if 0 < positive_score ∧ 0 < negative_score then
    { sentiment := "MIXED",
      confidence := pyRound 3 (6 / 10 + pyMin positive_score negative_score / 10),
      positive_score := pyRound 2 positive_score,
      negative_score := pyRound 2 negative_score,
      detected_keywords := detected_keywords.take 10 }
  else
    { sentiment := "NEUTRAL",
      confidence := pyRound 3 (1 / 2 + (token_count : ℚ) / 200),
      positive_score := pyRound 2 positive_score,
      negative_score := pyRound 2 negative_score,
      detected_keywords := detected_keywords.take 10 }

/-- `SentimentAnalyzer.analyze_sentiment`: falsy input short-circuits, else
the text is preprocessed, split into words, scored, and classified. -/
def analyze_sentiment (text : String) : SentimentResult :=
  if text = "" then
    { sentiment := "NEUTRAL", confidence := 0, positive_score := 0,
      negative_score := 0, detected_keywords := [] }
  else
    classify (scoreWords none (pyWords (preprocess_text text).data))
      (pyWords (preprocess_text text).data).length

example : analyze_sentiment "" =
    { sentiment := "NEUTRAL", confidence := 0, positive_score := 0,
      negative_score := 0, detected_keywords := [] } := by decide

example : analyze_sentiment "This is absolutely amazing and I love it" =
    { sentiment := "POSITIVE", confidence := 39 / 50, positive_score := 14 / 5,
      negative_score := 0, detected_keywords := ["+amazing", "+love"] } := by decide

example : analyze_sentiment "love love love love love hate hate hate hate hate" =
    { sentiment := "MIXED", confidence := 11 / 10, positive_score := 5,
      negative_score := 5,
      detected_keywords := ["+love", "+love", "+love", "+love", "+love",
        "-hate", "-hate", "-hate", "-hate", "-hate"] } := by decide

example : analyze_sentiment "http://foo" =
    { sentiment := "NEUTRAL", confidence := 1 / 2, positive_score := 0,
      negative_score := 0, detected_keywords := [] } := by decide

example : analyze_sentiment "extremely good" =
    { sentiment := "POSITIVE", confidence := 7 / 10, positive_score := 2,
      negative_score := 0, detected_keywords := ["+good"] } := by decide

/-! ## Business-keyword extractor (`extract_business_keywords`)

Each category's regex is `\b(term1|term2|...)\b` over the lowercased text,
scanned by `re.findall` left to right without overlap; the parenthesized
group (the matched term) is collected.  All terms start and end with
word characters, so the leading `\b` holds exactly when the previous
character is not a word character, and the trailing `\b` exactly when the
character after the term is not a word character. -/

/-- `business_patterns`, in the source's insertion order. -/
def business_patterns : List (String × List String) :=
  [("aws_services",
    ["lambda", "api gateway", "dynamodb", "s3", "ec2", "rds", "cloudfront",
     "sqs", "sns"]),
   ("competitors",
    ["azure", "google cloud", "gcp", "heroku", "digital ocean", "vercel"]),
   ("technologies",
    ["serverless", "microservices", "docker", "kubernetes", "terraform"]),
   ("sentiment_context",
    ["pricing", "cost", "performance", "speed", "reliability", "support"])]

def boundaryAfter (cs : List Char) : Bool :=
  match cs with
  | [] => true
  | c :: _ => !wordChar c

/-- Try each alternative in the regex's order at the current position;
succeed on the first whose text is a prefix here and whose trailing `\b`
holds. -/
def matchAlt : List String → List Char → Option (String × List Char)
  | [], _ => none
  | a :: rest, cs =>
    if a.data.isPrefixOf cs ∧ boundaryAfter (cs.drop a.data.length) then
      some (a, cs.drop a.data.length)
    else matchAlt rest cs

/-- `re.findall(r'\b(alt1|...)\b', text)`: scan left to right; a match is
attempted only where the leading `\b` holds (previous character, tracked by
the flag, is not a word character); after a match the scan resumes past it
(the matched term ends in a word character, so the flag becomes true). -/
def findallBF (alts : List String) : Nat → Bool → List Char → List String
  | 0, _, _ => []
  | _ + 1, _, [] => []
  | fuel + 1, prevw, c :: cs =>
    if prevw then findallBF alts fuel (wordChar c) cs
    else
      match matchAlt alts (c :: cs) with
      | some (a, rest) => a :: findallBF alts fuel true rest
      | none => findallBF alts fuel (wordChar c) cs

/-- `SentimentAnalyzer.extract_business_keywords`. -/
def extract_business_keywords (text : String) : List String :=
  let text_lower := text.data.map pyLower
  (business_patterns.flatMap (fun p =>
    (findallBF p.2 text_lower.length false text_lower).map
      (fun m => p.1 ++ ":" ++ m))).take 15

example : extract_business_keywords "Lambda beats Azure on cost; s3 rocks" =
    ["aws_services:lambda", "aws_services:s3", "competitors:azure",
     "sentiment_context:cost"] := by decide
example : extract_business_keywords "blambda dynamodbx" = [] := by decide

/-! ## Data model: raw items, analysis records, stores

`RawItem` models an item of the `reddit-raw-posts` table; DynamoDB items
are read with `.get(field, default)`, so optional text fields carry the
default directly.  `post_id` / `created_timestamp` are the table's key
schema (always present, unique per item).  `AnalysisRecord` models an item
of `reddit-processed-sentiment`; `Decimal` values are exact rationals. -/

structure RawItem where
  post_id : String
  created_timestamp : ℚ
  combined_text : String := ""
  title : String := ""
  selftext : String := ""
  subreddit : String := "unknown"
  author : String := "unknown"
  score : ℚ := 0
  processing_status : String := "raw"
  error_message : Option String := none
  processed_at : Option ℚ := none
deriving Repr, DecidableEq

/-- The constant `analysis_metadata` dict of `process_post_sentiment`. -/
structure AnalysisMetadata where
  processing_time_ms : Nat := 0
  model_version : String := "1.0"
  language_detected : String := "en"
deriving Repr, DecidableEq

structure AnalysisRecord where
  analysis_id : String
  processed_timestamp : ℚ
  original_post_id : String
  input_text : String
  sentiment : String
  confidence_score : ℚ
  positive_score : ℚ
  negative_score : ℚ
  detected_keywords : List String
  business_keywords : List String
  subreddit : String
  original_author : String
  original_score : ℚ
  original_created_timestamp : ℚ
  analysis_metadata : AnalysisMetadata := {}
deriving Repr, DecidableEq

/-- The two DynamoDB tables. -/
structure Stores where
  raw : List RawItem
  processed : List AnalysisRecord
deriving Repr, DecidableEq

/-- Result values of the handler functions are Python dicts; they are
modelled as association lists over a small JSON-value type so that which
keys a result carries is part of the model. -/
inductive JVal where
  | s : String → JVal
  | n : Nat → JVal
  | arr : List String → JVal
deriving Repr, DecidableEq

/-- `process_post_sentiment`'s text selection: the `combined_text` field if
non-empty, else `f"{title} {selftext}".strip()`. -/
def combinedTextOf (post : RawItem) : String :=
  if post.combined_text = "" then
    String.mk (pyStrip (post.title ++ " " ++ post.selftext).data)
  else post.combined_text

/-- The `analysis_record` dict assembled by `process_post_sentiment`, with
the fresh `analysis_id` and the current timestamp passed explicitly
(`uuid.uuid4()` and `datetime.now()` are the caller environment's
nondeterminism). -/
def mkAnalysisRecord (post : RawItem) (analysis_id : String) (now : ℚ) :
    AnalysisRecord :=
  let combined_text := combinedTextOf post
  let sentiment_result := analyze_sentiment combined_text
  let business_keywords := extract_business_keywords combined_text
  { analysis_id := analysis_id
    processed_timestamp := now
    original_post_id := post.post_id
    input_text := String.mk (combined_text.data.take 1000)
    sentiment := sentiment_result.sentiment
    confidence_score := sentiment_result.confidence
    positive_score := sentiment_result.positive_score
    negative_score := sentiment_result.negative_score
    detected_keywords := sentiment_result.detected_keywords
    business_keywords := business_keywords
    subreddit := post.subreddit
    original_author := post.author
    original_score := post.score
    original_created_timestamp := post.created_timestamp }

structure SingleOutcome where
  analysis_id : String
  sentiment : String
  confidence : ℚ
deriving Repr, DecidableEq

/-- The error message standing for the exception a failed
`processed_table.put_item` call raises. -/
def putErrMsg : String := "StoreError: put_item failed"

/-- `process_post_sentiment(post, analyzer, processed_table)`: build the
analysis record, write it to the processed table, return
`{analysis_id, sentiment, confidence}`.  The external `put_item` call is
the one fallible step (modelled by `put_fail`); on failure the exception
propagates and the table is unchanged. -/
def process_post_sentiment (put_fail : AnalysisRecord → Bool) (post : RawItem)
    (analysis_id : String) (now : ℚ) (processed_table : List AnalysisRecord) :
    Except String (List AnalysisRecord × SingleOutcome) :=
  let record := mkAnalysisRecord post analysis_id now
  if put_fail record then Except.error putErrMsg
  else Except.ok (processed_table ++ [record],
    { analysis_id := analysis_id, sentiment := record.sentiment,
      confidence := record.confidence_score })

/-- `raw_table.update_item(Key={post_id, created_timestamp}, ...)`: rewrite
the item with the given key (the table's key schema, unique per item). -/
def update_raw_item (raw : List RawItem) (pid : String) (ts : ℚ)
    (f : RawItem → RawItem) : List RawItem :=
  raw.map (fun it => if it.post_id = pid ∧ it.created_timestamp = ts then f it else it)

/-- The batch loop's success update:
`SET processing_status = 'processed', processed_at = now`. -/
def markProcessedBatch (now : ℚ) (it : RawItem) : RawItem :=
  { it with processing_status := "processed", processed_at := some now }

/-- The single-item path's success update: `SET processing_status =
'processed'` (no `processed_at`). -/
def markProcessedSingle (it : RawItem) : RawItem :=
  { it with processing_status := "processed" }

/-- The batch loop's failure update:
`SET processing_status = 'error', error_message = str(e)`. -/
def markError (msg : String) (it : RawItem) : RawItem :=
  { it with processing_status := "error", error_message := some msg }

/-- The `for post in unprocessed_posts` loop of `process_batch_posts`:
each item is processed inside `try/except`; success appends the analysis
id, marks the item processed and increments the count; failure marks the
item `error` with the exception's message and the loop continues. -/
def batchLoop (put_fail : AnalysisRecord → Bool) (now : ℚ) :
    List (RawItem × String) → Stores → Nat → List String →
    Stores × Nat × List String
  | [], st, processed_count, analysis_ids => (st, processed_count, analysis_ids)
  | (post, aid) :: rest, st, processed_count, analysis_ids =>
    match process_post_sentiment put_fail post aid now st.processed with
    | Except.ok (tbl, out) =>
      let raw2 := update_raw_item st.raw post.post_id post.created_timestamp
        (markProcessedBatch now)
      batchLoop put_fail now rest ⟨raw2, tbl⟩ (processed_count + 1)
        (analysis_ids ++ [out.analysis_id])
    | Except.error e =>
      let raw2 := update_raw_item st.raw post.post_id post.created_timestamp
        (markError e)
      batchLoop put_fail now rest ⟨raw2, st.processed⟩ processed_count analysis_ids

/-- The batch query: `raw_table.query(IndexName='processing-status-index',
KeyConditionExpression=processing_status = 'raw', Limit=batch_size)` — up
to `batch_size` items whose status is `'raw'`, in store order. -/
def fetchedRaw (st : Stores) (batch_size : Nat) : List RawItem :=
  (st.raw.filter (fun it => it.processing_status == "raw")).take batch_size

/-- The fetched items, each with the `uuid.uuid4()` its processing will
draw (`uuids i` for the i-th item of the batch). -/
def batchPairs (uuids : Nat → String) (st : Stores) (batch_size : Nat) :
    List (RawItem × String) :=
  (fetchedRaw st batch_size).enum.map (fun p => (p.2, uuids p.1))

/-- `process_batch_posts(analyzer, raw_table, processed_table, batch_size)`:
query the status index, return the early message dict when no raw items
are found, else run the loop and return
`{processed_posts, analysis_ids, total_found}`. -/
def process_batch_posts (put_fail : AnalysisRecord → Bool)
    (uuids : Nat → String) (now : ℚ) (st : Stores) (batch_size : Nat) :
    Stores × List (String × JVal) :=
  let unprocessed_posts := fetchedRaw st batch_size
  if unprocessed_posts.isEmpty then
    (st, [("processed_posts", JVal.n 0),
          ("message", JVal.s "No unprocessed posts found")])
  else
    let r := batchLoop put_fail now (batchPairs uuids st batch_size) st 0 []
    (r.1, [("processed_posts", JVal.n r.2.1),
           ("analysis_ids", JVal.arr r.2.2),
           ("total_found", JVal.n unprocessed_posts.length)])

/-- `process_single_post(event, analyzer, raw_table, processed_table)`:
`event.get('post_id')` is falsy (absent or empty) → `ValueError`; query by
partition key, empty result → `ValueError`; else process the first item,
mark it processed (status only) and return
`{processed_posts: 1, analysis_id}`.  An exception leaves the stores as
they were (nothing is written before the raise). -/
def process_single_post (put_fail : AnalysisRecord → Bool) (uuid : String)
    (now : ℚ) (st : Stores) (post_id : String) :
    Stores × Except String (List (String × JVal)) :=
  if post_id = "" then
    (st, Except.error "post_id is required for single post processing")
  else
    match st.raw.filter (fun it => it.post_id == post_id) with
    | [] => (st, Except.error ("Post " ++ post_id ++ " not found in raw posts table"))
    | post :: _ =>
      match process_post_sentiment put_fail post uuid now st.processed with
      | Except.error e => (st, Except.error e)
      | Except.ok (tbl, out) =>
        let raw2 := update_raw_item st.raw post.post_id post.created_timestamp
          markProcessedSingle
        (⟨raw2, tbl⟩,
         Except.ok [("processed_posts", JVal.n 1),
                    ("analysis_id", JVal.s out.analysis_id)])

/-- The DynamoDB key of a raw item (unique per item in a table). -/
def rawKey (it : RawItem) : String × ℚ := (it.post_id, it.created_timestamp)

/-- The message of a raised exception, `none` on normal return. -/
def errOf {ε α : Type} : Except ε α → Option ε
  | Except.error e => some e
  | Except.ok _ => none

/-- Whether processing the fetched item succeeds (its analysis-store write
is not faulted); processing has no other fallible step. -/
def itemOk (put_fail : AnalysisRecord → Bool) (now : ℚ) (p : RawItem × String) :
    Bool :=
  !put_fail (mkAnalysisRecord p.1 p.2 now)

/-- The per-item outcome of one batch run: the item matching a fetched pair
(by table key) ends marked processed or marked error according to its own
success alone; any other item is untouched. -/
def batchItemOutcome (put_fail : AnalysisRecord → Bool) (now : ℚ)
    (pairs : List (RawItem × String)) (it : RawItem) : RawItem :=
  match pairs.find? (fun p => decide (rawKey p.1 = rawKey it)) with
  | some p =>
    if itemOk put_fail now p then markProcessedBatch now it
    else markError putErrMsg it
  | none => it

section Examples

def exItem : RawItem :=
  { post_id := "p1", created_timestamp := 10, combined_text := "I love this" }

/-- An item with no extractable text: empty `combined_text` and empty
`title`/`selftext` fallbacks. -/
def noTextItem : RawItem := { post_id := "p1", created_timestamp := 0 }

def wItem1 : RawItem :=
  { post_id := "p1", created_timestamp := 1, combined_text := "great service" }

def wItem2 : RawItem :=
  { post_id := "p2", created_timestamp := 2, combined_text := "bad bug" }

def wItem3 : RawItem :=
  { post_id := "p3", created_timestamp := 3, combined_text := "love it" }

/-- A store fault: the analysis-store write fails exactly for item `p2`. -/
def wFail : AnalysisRecord → Bool := fun r => r.original_post_id == "p2"

def wStore : Stores := ⟨[wItem1, wItem2, wItem3], []⟩

example :
    (process_batch_posts (fun _ => false) (fun _ => "a1") 7 ⟨[exItem], []⟩ 25).1.raw =
      [{ exItem with processing_status := "processed", processed_at := some 7 }] := by
  decide

example :
    (process_batch_posts (fun _ => true) (fun _ => "a1") 7 ⟨[exItem], []⟩ 25).1.raw =
      [{ exItem with processing_status := "error", error_message := some putErrMsg }] := by
  decide

example :
    (process_batch_posts (fun _ => false) (fun _ => "a1") 7 ⟨[], []⟩ 25).2 =
      [("processed_posts", JVal.n 0),
       ("message", JVal.s "No unprocessed posts found")] := by decide

example :
    (process_single_post (fun _ => false) "a9" 7 ⟨[exItem], []⟩ "p1").2.toOption =
      some [("processed_posts", JVal.n 1), ("analysis_id", JVal.s "a9")] := by
  decide

example :
    errOf (process_single_post (fun _ => false) "a9" 7 ⟨[exItem], []⟩ "p9").2 =
      some "Post p9 not found in raw posts table" := by decide

end Examples

/-! ## Rounding and weight lemmas -/

theorem rat_floor_eq_intFloor (x : ℚ) : x.floor = ⌊x⌋ :=
  (Rat.floor_def' x).trans Rat.floor_def.symm

theorem pyRoundInt_nonneg {x : ℚ} (hx : 0 ≤ x) : 0 ≤ pyRoundInt x := by
  have h0 : (0 : ℤ) ≤ ⌊x⌋ := Int.floor_nonneg.mpr hx
  simp only [pyRoundInt, rat_floor_eq_intFloor]
  split_ifs <;> omega

theorem pyRoundInt_le_int {x : ℚ} {n : ℤ} (h : x ≤ (n : ℚ)) : pyRoundInt x ≤ n := by
  simp only [pyRoundInt, rat_floor_eq_intFloor]
  rcases eq_or_lt_of_le h with heq | hlt
  · subst heq
    rw [Int.floor_intCast, sub_self]
    norm_num
  · have hfl : ⌊x⌋ < n := Int.floor_lt.mpr hlt
    split_ifs <;> omega

theorem pyRound_nonneg (d : Nat) {x : ℚ} (hx : 0 ≤ x) : 0 ≤ pyRound d x := by
  have h1 : (0 : ℤ) ≤ pyRoundInt (x * 10 ^ d) := pyRoundInt_nonneg (by positivity)
  have h2 : (0 : ℚ) ≤ (pyRoundInt (x * 10 ^ d) : ℚ) := by exact_mod_cast h1
  exact div_nonneg h2 (by positivity)

theorem pyRound3_cap {x : ℚ} (h : x ≤ 19 / 20) : pyRound 3 x ≤ 19 / 20 := by
  have h1 : x * 10 ^ 3 ≤ ((950 : ℤ) : ℚ) := by push_cast; linarith
  have h2 := pyRoundInt_le_int h1
  have h3 : (pyRoundInt (x * 10 ^ 3) : ℚ) ≤ 950 := by exact_mod_cast h2
  unfold pyRound
  rw [div_le_iff₀ (by norm_num : (0 : ℚ) < 10 ^ 3)]
  have h4 : (19 : ℚ) / 20 * 10 ^ 3 = 950 := by norm_num
  rw [h4]
  exact h3

theorem pyMin_le_left (a b : ℚ) : pyMin a b ≤ a := by
  unfold pyMin
  split_ifs with h
  · exact le_refl a
  · exact le_of_not_le h

theorem pyMin_nonneg {a b : ℚ} (ha : 0 ≤ a) (hb : 0 ≤ b) : 0 ≤ pyMin a b := by
  unfold pyMin
  split_ifs <;> assumption

theorem pyAbs_nonneg (a : ℚ) : 0 ≤ pyAbs a := by
  unfold pyAbs
  split_ifs with h <;> linarith

theorem intensifiers_lookup_nonneg {s : String} {q : ℚ}
    (h : intensifiers.lookup s = some q) : 0 ≤ q := by
  rcases List.lookup_eq_some_iff.mp h with ⟨l₁, l₂, hl, -⟩
  have hmem : (s, q) ∈ intensifiers := by
    rw [hl]
    exact List.mem_append_right _ (List.mem_cons_self _ _)
  simp only [intensifiers, List.mem_cons, List.not_mem_nil, or_false,
    Prod.mk.injEq] at hmem
  rcases hmem with ⟨-, rfl⟩ | ⟨-, rfl⟩ | ⟨-, rfl⟩ | ⟨-, rfl⟩ | ⟨-, rfl⟩ | ⟨-, rfl⟩ <;>
    norm_num

theorem baseWeightOf_nonneg (prev : Option (List Char)) : 0 ≤ baseWeightOf prev := by
  cases prev with
  | none => norm_num [baseWeightOf]
  | some p =>
    simp only [baseWeightOf]
    cases h : intensifiers.lookup (String.mk p) with
    | none => norm_num
    | some q => simpa using intensifiers_lookup_nonneg h

theorem scoreWords_nonneg (prev : Option (List Char)) (ws : List (List Char)) :
    0 ≤ (scoreWords prev ws).1 ∧ 0 ≤ (scoreWords prev ws).2.1 := by
  induction ws generalizing prev with
  | nil => simp [scoreWords]
  | cons w rest ih =>
    have hb := baseWeightOf_nonneg prev
    have hr := ih (some w)
    simp only [scoreWords]
    split_ifs <;> exact ⟨by simp; linarith [hr.1, hr.2], by simp; linarith [hr.1, hr.2]⟩

theorem classify_confidence_bounds (sc : ℚ × ℚ × List String) (tc : Nat)
    (hp : 0 ≤ sc.1) (hn : 0 ≤ sc.2.1) :
    0 ≤ (classify sc tc).confidence ∧
    ((classify sc tc).sentiment = "POSITIVE" ∨
        (classify sc tc).sentiment = "NEGATIVE" →
      (classify sc tc).confidence ≤ 19 / 20) := by
  simp only [classify]
  split_ifs with h1 h2 h3
  · refine ⟨pyRound_nonneg 3 (pyMin_nonneg (by norm_num) (by linarith)), fun _ => ?_⟩
    exact pyRound3_cap (le_of_le_of_eq (pyMin_le_left _ _) (by norm_num))
  · refine ⟨pyRound_nonneg 3 (pyMin_nonneg (by norm_num) ?_), fun _ => ?_⟩
    · have := pyAbs_nonneg (sc.1 - sc.2.1)
      linarith
    · exact pyRound3_cap (le_of_le_of_eq (pyMin_le_left _ _) (by norm_num))
  · refine ⟨pyRound_nonneg 3 ?_, fun hc => ?_⟩
    · have := pyMin_nonneg hp hn
      linarith
    · rcases hc with hc | hc <;> dsimp only at hc <;> exact absurd hc (by decide)
  · refine ⟨pyRound_nonneg 3 ?_, fun hc => ?_⟩
    · have : (0 : ℚ) ≤ (tc : ℚ) := Nat.cast_nonneg tc
      linarith
    · rcases hc with hc | hc <;> dsimp only at hc <;> exact absurd hc (by decide)

/-! ## Claim theorems: the scorer (C3, C4, C8, C10) -/

/-- C8: empty (falsy) input to the Scorer short-circuits to
`{NEUTRAL, confidence 0.0, positive_score 0.0, negative_score 0.0, []}`
without tokenizing. -/
theorem empty_text_short_circuit :
    analyze_sentiment "" =
      { sentiment := "NEUTRAL", confidence := 0, positive_score := 0,
        negative_score := 0, detected_keywords := [] } := by decide

/-- C3: on `"This is absolutely amazing and I love it"` the Scorer returns
positive_score 2.8 (1.8 from "amazing" after intensifier "absolutely" plus
1.0 from "love"), negative_score 0, POSITIVE, confidence 0.78; and in
general an intensifier immediately preceding a positive (resp. negative)
lexicon word adds exactly its factor to the positive (resp. negative)
score in place of the base weight 1.0. -/
theorem intensifier_example_and_general :
    (analyze_sentiment "This is absolutely amazing and I love it" =
      { sentiment := "POSITIVE", confidence := 39 / 50, positive_score := 14 / 5,
        negative_score := 0, detected_keywords := ["+amazing", "+love"] }) ∧
    (∀ (v w : String) (f : ℚ) (rest : List (List Char)),
      intensifiers.lookup v = some f →
      positive_keywords.contains w = true →
      (scoreWords (some v.data) (w.data :: rest)).1 =
        f + (scoreWords (some w.data) rest).1) ∧
    (∀ (v w : String) (f : ℚ) (rest : List (List Char)),
      intensifiers.lookup v = some f →
      positive_keywords.contains w = false →
      negative_keywords.contains w = true →
      (scoreWords (some v.data) (w.data :: rest)).2.1 =
        f + (scoreWords (some w.data) rest).2.1) := by
  refine ⟨by decide, ?_, ?_⟩
  · intro v w f rest hv hw
    have hbase : baseWeightOf (some v.data) = f := by
      simp only [baseWeightOf]
      rw [show String.mk v.data = v from rfl, hv, Option.getD_some]
    simp only [scoreWords]
    rw [show String.mk w.data = w from rfl, hw, if_pos rfl, hbase]
  · intro v w f rest hv hw hw2
    have hbase : baseWeightOf (some v.data) = f := by
      simp only [baseWeightOf]
      rw [show String.mk v.data = v from rfl, hv, Option.getD_some]
    simp only [scoreWords]
    rw [show String.mk w.data = w from rfl, hw, hw2]
    simp [hbase]

/-- C4 counterexample: the claim "confidence lies in [0,1] for every input"
fails — on five positive and five negative lexicon words the MIXED branch
yields confidence 0.6 + 5/10 = 1.1 > 1. -/
theorem confidence_above_one_cex :
    1 < (analyze_sentiment
      "love love love love love hate hate hate hate hate").confidence := by decide

/-- C4 (amended): for every input text the confidence is ≥ 0, and in the
POSITIVE and NEGATIVE branches it is ≤ 0.95 (hence ≤ 1); the NEUTRAL
(`0.5 + token_count/200`) and MIXED (`0.6 + min/10`) formulas are uncapped
and can exceed 1. -/
theorem confidence_nonneg_and_pos_neg_capped (text : String) :
    0 ≤ (analyze_sentiment text).confidence ∧
    ((analyze_sentiment text).sentiment = "POSITIVE" ∨
        (analyze_sentiment text).sentiment = "NEGATIVE" →
      (analyze_sentiment text).confidence ≤ 19 / 20) := by
  unfold analyze_sentiment
  split_ifs with h0
  · exact ⟨le_refl 0, fun hc => by rcases hc with hc | hc <;> exact absurd hc (by decide)⟩
  · exact classify_confidence_bounds _ _ (scoreWords_nonneg _ _).1
      (scoreWords_nonneg _ _).2

/-- C10: a non-empty input whose normalization leaves no tokens does not
take the empty-input short-circuit: it classifies as NEUTRAL with
confidence 0.5 + 0/200 = 0.5, zero scores and no keywords. -/
theorem tokenless_text_neutral (text : String) (h0 : text ≠ "")
    (hws : pyWords (preprocess_text text).data = []) :
    analyze_sentiment text =
      { sentiment := "NEUTRAL", confidence := 1 / 2, positive_score := 0,
        negative_score := 0, detected_keywords := [] } := by
  unfold analyze_sentiment
  rw [if_neg h0, hws]
  decide

/-- C10 witness: `"http://foo"` is non-empty, normalizes to no tokens, and
scores NEUTRAL with confidence 0.5. -/
theorem tokenless_text_neutral_witness :
    analyze_sentiment "http://foo" =
      { sentiment := "NEUTRAL", confidence := 1 / 2, positive_score := 0,
        negative_score := 0, detected_keywords := [] } :=
  tokenless_text_neutral "http://foo" (by decide) (by decide)

/-! ## Batch-loop characterization

One batch run acts on the raw store pointwise: each item matching a
fetched pair by key is marked according to that pair's own success,
everything else is untouched; the processed table gains exactly the
records of the successful pairs, in order. -/

theorem rawKey_markProcessedBatch (now : ℚ) (it : RawItem) :
    rawKey (markProcessedBatch now it) = rawKey it := rfl

theorem rawKey_markError (msg : String) (it : RawItem) :
    rawKey (markError msg it) = rawKey it := rfl

theorem key_match_iff (it post : RawItem) :
    (it.post_id = post.post_id ∧ it.created_timestamp = post.created_timestamp) ↔
      rawKey it = rawKey post := by
  simp [rawKey, Prod.ext_iff]

theorem map_outcome_update (put_fail : AnalysisRecord → Bool) (now : ℚ)
    (post : RawItem) (aid : String) (rest : List (RawItem × String))
    (raw : List RawItem)
    (hk : rawKey post ∉ rest.map (fun p => rawKey p.1))
    (g : RawItem → RawItem) (hg : ∀ it, rawKey (g it) = rawKey it)
    (hgm : ∀ it, g it = if itemOk put_fail now (post, aid) then
      markProcessedBatch now it else markError putErrMsg it) :
    (update_raw_item raw post.post_id post.created_timestamp g).map
        (batchItemOutcome put_fail now rest) =
      raw.map (batchItemOutcome put_fail now ((post, aid) :: rest)) := by
  unfold update_raw_item
  rw [List.map_map]
  apply List.map_congr_left
  intro it _
  simp only [Function.comp_apply]
  by_cases hkey : it.post_id = post.post_id ∧ it.created_timestamp = post.created_timestamp
  · rw [if_pos hkey]
    have hkey2 : rawKey it = rawKey post := (key_match_iff it post).mp hkey
    have hnone : rest.find? (fun p => decide (rawKey p.1 = rawKey (g it))) = none := by
      rw [List.find?_eq_none]
      intro q hq
      simp only [hg, hkey2, decide_eq_true_eq]
      intro hcontra
      exact hk (by rw [← hcontra]; exact List.mem_map_of_mem _ hq)
    unfold batchItemOutcome
    rw [hnone, List.find?_cons_of_pos _ (by simp [hkey2])]
    exact hgm it
  · rw [if_neg hkey]
    have hne : rawKey post ≠ rawKey it := by
      intro he
      exact hkey ((key_match_iff it post).mpr he.symm)
    unfold batchItemOutcome
    rw [List.find?_cons_of_neg _ (by simp [hne])]

theorem batchLoop_spec (put_fail : AnalysisRecord → Bool) (now : ℚ) :
    ∀ (pairs : List (RawItem × String)) (st : Stores) (cnt : Nat)
      (ids : List String),
    (pairs.map (fun p => rawKey p.1)).Nodup →
    batchLoop put_fail now pairs st cnt ids =
      (⟨st.raw.map (batchItemOutcome put_fail now pairs),
        st.processed ++ (pairs.filter (itemOk put_fail now)).map
          (fun p => mkAnalysisRecord p.1 p.2 now)⟩,
       cnt + (pairs.filter (itemOk put_fail now)).length,
       ids ++ (pairs.filter (itemOk put_fail now)).map (fun p => p.2)) := by
  intro pairs
  induction pairs with
  | nil =>
    intro st cnt ids _
    have hid : batchItemOutcome put_fail now [] = (fun it => it) :=
      funext (fun _ => rfl)
    obtain ⟨raw, processed⟩ := st
    simp [batchLoop, hid]
  | cons p rest ih =>
    intro st cnt ids hnodup
    obtain ⟨post, aid⟩ := p
    have hk : rawKey post ∉ rest.map (fun q => rawKey q.1) :=
      (List.nodup_cons.mp (by simpa using hnodup)).1
    have hrest : (rest.map (fun q => rawKey q.1)).Nodup :=
      (List.nodup_cons.mp (by simpa using hnodup)).2
    cases hfail : put_fail (mkAnalysisRecord post aid now) with
    | false =>
      have hio : itemOk put_fail now (post, aid) = true := by
        simp [itemOk, hfail]
      simp only [batchLoop, process_post_sentiment, hfail, Bool.false_eq_true,
        if_false]
      rw [ih _ _ _ hrest]
      rw [map_outcome_update put_fail now post aid rest st.raw hk
        (markProcessedBatch now) (fun _ => rfl) (fun it => by rw [if_pos hio])]
      rw [List.filter_cons_of_pos hio]
      simp [List.append_assoc, Nat.add_comm, Nat.add_assoc, Nat.add_left_comm]
    | true =>
      have hio : itemOk put_fail now (post, aid) = false := by
        simp [itemOk, hfail]
      simp only [batchLoop, process_post_sentiment, hfail, if_true]
      rw [ih _ _ _ hrest]
      rw [map_outcome_update put_fail now post aid rest st.raw hk
        (markError putErrMsg) (fun _ => rfl) (fun it => by rw [if_neg (by simp [hio])])]
      rw [List.filter_cons_of_neg (by simp [hio])]

theorem pairs_keys_eq (uuids : Nat → String) (st : Stores) (N : Nat) :
    (batchPairs uuids st N).map (fun p => rawKey p.1) =
      (fetchedRaw st N).map rawKey := by
  unfold batchPairs
  rw [List.map_map]
  rw [show ((fun p : RawItem × String => rawKey p.1) ∘
      (fun p : Nat × RawItem => (p.2, uuids p.1))) = (rawKey ∘ Prod.snd) from rfl]
  rw [← List.map_map, List.enum_map_snd]

theorem fetched_sublist (st : Stores) (N : Nat) :
    List.Sublist (fetchedRaw st N) st.raw :=
  (List.take_sublist _ _).trans (List.filter_sublist _)

theorem pairs_nodup (uuids : Nat → String) (st : Stores) (N : Nat)
    (h : (st.raw.map rawKey).Nodup) :
    ((batchPairs uuids st N).map (fun p => rawKey p.1)).Nodup := by
  rw [pairs_keys_eq]
  exact h.sublist ((fetched_sublist st N).map rawKey)

theorem find?_key_self :
    ∀ (pairs : List (RawItem × String)),
    (pairs.map (fun p => rawKey p.1)).Nodup →
    ∀ {p : RawItem × String}, p ∈ pairs →
    pairs.find? (fun q => decide (rawKey q.1 = rawKey p.1)) = some p := by
  intro pairs
  induction pairs with
  | nil =>
    intro _ p hp
    simp at hp
  | cons q rest ih =>
    intro hnodup p hp
    have hk : rawKey q.1 ∉ rest.map (fun r => rawKey r.1) :=
      (List.nodup_cons.mp (by simpa using hnodup)).1
    have hrest : (rest.map (fun r => rawKey r.1)).Nodup :=
      (List.nodup_cons.mp (by simpa using hnodup)).2
    rcases List.mem_cons.mp hp with rfl | hmem
    · exact List.find?_cons_of_pos _ (by simp)
    · have hne : rawKey q.1 ≠ rawKey p.1 :=
        fun he => hk (he ▸ List.mem_map_of_mem _ hmem)
      rw [List.find?_cons_of_neg _ (by simp [hne])]
      exact ih hrest hmem

theorem mem_batchPairs_fst {uuids : Nat → String} {st : Stores} {N : Nat}
    {p : RawItem × String} (hp : p ∈ batchPairs uuids st N) :
    p.1 ∈ fetchedRaw st N := by
  unfold batchPairs at hp
  rcases List.mem_map.mp hp with ⟨q, hq, rfl⟩
  rw [← List.enum_map_snd (fetchedRaw st N)]
  exact List.mem_map_of_mem _ hq

theorem process_batch_posts_eq (put_fail : AnalysisRecord → Bool)
    (uuids : Nat → String) (now : ℚ) (st : Stores) (N : Nat)
    (hnodup : (st.raw.map rawKey).Nodup) (hne : fetchedRaw st N ≠ []) :
    process_batch_posts put_fail uuids now st N =
      (⟨st.raw.map (batchItemOutcome put_fail now (batchPairs uuids st N)),
        st.processed ++ ((batchPairs uuids st N).filter (itemOk put_fail now)).map
          (fun p => mkAnalysisRecord p.1 p.2 now)⟩,
       [("processed_posts",
         JVal.n ((batchPairs uuids st N).filter (itemOk put_fail now)).length),
        ("analysis_ids",
         JVal.arr (((batchPairs uuids st N).filter (itemOk put_fail now)).map
           (fun p => p.2))),
        ("total_found", JVal.n (fetchedRaw st N).length)]) := by
  unfold process_batch_posts
  rw [if_neg (by simpa [List.isEmpty_iff] using hne)]
  rw [batchLoop_spec put_fail now _ _ _ _ (pairs_nodup uuids st N hnodup)]
  simp

/-! ## Claim theorems: the orchestrator (C1, C2, C5, C6, C7) -/

/-- C1 counterexample: on an item with no extractable text the Item
Processor does not fail (no exception is raised: the Scorer's empty-text
short-circuit applies) and the Orchestrator records the item as
`processed`, not `error` — refuting the claimed `ProcessingError`. -/
theorem no_text_item_marked_processed_cex :
    errOf (process_post_sentiment (fun _ => false) noTextItem "a1" 0 []) = none ∧
    (process_batch_posts (fun _ => false) (fun _ => "a1") 0
        ⟨[noTextItem], []⟩ 25).1.raw.map (fun it => it.processing_status) =
      ["processed"] := by decide

/-- C1 (amended): an item with no extractable text does not make the Item
Processor fail — the empty-text short-circuit yields a NEUTRAL record with
confidence 0.0, and (provided the analysis-store write succeeds) the
Orchestrator records the item as `processed`, never `error`. -/
theorem no_text_item_neutral_and_processed (put_fail : AnalysisRecord → Bool)
    (post : RawItem) (aid : String) (now : ℚ) (tbl : List AnalysisRecord)
    (N : Nat) (hct : post.combined_text = "") (ht : post.title = "")
    (hs : post.selftext = "") (hraw : post.processing_status = "raw")
    (hN : N ≠ 0) (hok : put_fail (mkAnalysisRecord post aid now) = false) :
    process_post_sentiment put_fail post aid now tbl =
      Except.ok (tbl ++ [mkAnalysisRecord post aid now],
        { analysis_id := aid, sentiment := "NEUTRAL", confidence := 0 }) ∧
    (mkAnalysisRecord post aid now).sentiment = "NEUTRAL" ∧
    (mkAnalysisRecord post aid now).confidence_score = 0 ∧
    (process_batch_posts put_fail (fun _ => aid) now ⟨[post], tbl⟩ N).1.raw =
      [markProcessedBatch now post] := by
  have hctext : combinedTextOf post = "" := by
    unfold combinedTextOf
    rw [hct, ht, hs]
    decide
  have hsent : (mkAnalysisRecord post aid now).sentiment = "NEUTRAL" := by
    rw [show (mkAnalysisRecord post aid now).sentiment =
      (analyze_sentiment (combinedTextOf post)).sentiment from rfl, hctext]
    decide
  have hconf : (mkAnalysisRecord post aid now).confidence_score = 0 := by
    rw [show (mkAnalysisRecord post aid now).confidence_score =
      (analyze_sentiment (combinedTextOf post)).confidence from rfl, hctext]
    decide
  have hpps : process_post_sentiment put_fail post aid now tbl =
      Except.ok (tbl ++ [mkAnalysisRecord post aid now],
        { analysis_id := aid, sentiment := "NEUTRAL", confidence := 0 }) := by
    unfold process_post_sentiment
    rw [if_neg (by simp [hok])]
    rw [hsent, hconf]
  refine ⟨hpps, hsent, hconf, ?_⟩
  have hfetch : fetchedRaw ⟨[post], tbl⟩ N = [post] := by
    unfold fetchedRaw
    have h1 : ([post].filter (fun it => it.processing_status == "raw")) = [post] := by
      simp [hraw]
    rw [show (⟨[post], tbl⟩ : Stores).raw = [post] from rfl, h1,
      List.take_of_length_le (by simp [Nat.one_le_iff_ne_zero, hN])]
  have hpairs : batchPairs (fun _ => aid) ⟨[post], tbl⟩ N = [(post, aid)] := by
    unfold batchPairs
    rw [hfetch]
    rfl
  rw [process_batch_posts_eq _ _ _ _ _ (by simp) (by rw [hfetch]; simp)]
  dsimp only
  rw [hpairs]
  simp [batchItemOutcome, List.find?, itemOk, hok]

/-- C1 witness for the amended theorem: a concrete no-text raw item is
processed (NEUTRAL, confidence 0) and marked `processed` by the batch. -/
theorem no_text_item_neutral_and_processed_witness :
    process_post_sentiment (fun _ => false) noTextItem "a1" 0 [] =
      Except.ok ([] ++ [mkAnalysisRecord noTextItem "a1" 0],
        { analysis_id := "a1", sentiment := "NEUTRAL", confidence := 0 }) ∧
    (mkAnalysisRecord noTextItem "a1" 0).sentiment = "NEUTRAL" ∧
    (mkAnalysisRecord noTextItem "a1" 0).confidence_score = 0 ∧
    (process_batch_posts (fun _ => false) (fun _ => "a1") 0
        ⟨[noTextItem], []⟩ 25).1.raw = [markProcessedBatch 0 noTextItem] :=
  no_text_item_neutral_and_processed (fun _ => false) noTextItem "a1" 0 [] 25
    (by decide) (by decide) (by decide) (by decide) (by decide) (by decide)

/-- C2: items of a batch are processed independently.  The run equals a
per-item map over the store — each fetched item's final status depends on
its own success alone — the processed count is exactly the number of
successful items, and membership facts: every failed item ends marked
`error` with the failure's message, every successful item (wherever it
sits in the batch, before or after failures) ends marked `processed`.  The
loop is total: a per-item failure never aborts the batch. -/
theorem batch_failure_isolation (put_fail : AnalysisRecord → Bool)
    (uuids : Nat → String) (now : ℚ) (st : Stores) (N : Nat)
    (hnodup : (st.raw.map rawKey).Nodup) (hne : fetchedRaw st N ≠ []) :
    process_batch_posts put_fail uuids now st N =
      (⟨st.raw.map (batchItemOutcome put_fail now (batchPairs uuids st N)),
        st.processed ++ ((batchPairs uuids st N).filter (itemOk put_fail now)).map
          (fun p => mkAnalysisRecord p.1 p.2 now)⟩,
       [("processed_posts",
         JVal.n ((batchPairs uuids st N).filter (itemOk put_fail now)).length),
        ("analysis_ids",
         JVal.arr (((batchPairs uuids st N).filter (itemOk put_fail now)).map
           (fun p => p.2))),
        ("total_found", JVal.n (fetchedRaw st N).length)]) ∧
    (∀ p ∈ batchPairs uuids st N, itemOk put_fail now p = false →
      markError putErrMsg p.1 ∈
        (process_batch_posts put_fail uuids now st N).1.raw) ∧
    (∀ p ∈ batchPairs uuids st N, itemOk put_fail now p = true →
      markProcessedBatch now p.1 ∈
        (process_batch_posts put_fail uuids now st N).1.raw) := by
  have heq := process_batch_posts_eq put_fail uuids now st N hnodup hne
  refine ⟨heq, ?_, ?_⟩
  · intro p hp hbad
    rw [heq]
    dsimp only
    have h1 : p.1 ∈ st.raw := (fetched_sublist st N).subset (mem_batchPairs_fst hp)
    have h2 : batchItemOutcome put_fail now (batchPairs uuids st N) p.1 =
        markError putErrMsg p.1 := by
      unfold batchItemOutcome
      rw [find?_key_self _ (pairs_nodup uuids st N hnodup) hp]
      dsimp only
      rw [if_neg (by simp [hbad])]
    rw [← h2]
    exact List.mem_map_of_mem _ h1
  · intro p hp hgood
    rw [heq]
    dsimp only
    have h1 : p.1 ∈ st.raw := (fetched_sublist st N).subset (mem_batchPairs_fst hp)
    have h2 : batchItemOutcome put_fail now (batchPairs uuids st N) p.1 =
        markProcessedBatch now p.1 := by
      unfold batchItemOutcome
      rw [find?_key_self _ (pairs_nodup uuids st N hnodup) hp]
      dsimp only
      rw [if_pos hgood]
    rw [← h2]
    exact List.mem_map_of_mem _ h1

/-- C2 witness: in a three-item batch whose middle item's analysis-store
write fails, the middle item is marked `error` with the store error's
message while the first and third are still marked `processed`. -/
theorem batch_failure_isolation_witness :
    markError putErrMsg wItem2 ∈
      (process_batch_posts wFail (fun _ => "a") 0 wStore 25).1.raw ∧
    markProcessedBatch 0 wItem1 ∈
      (process_batch_posts wFail (fun _ => "a") 0 wStore 25).1.raw ∧
    markProcessedBatch 0 wItem3 ∈
      (process_batch_posts wFail (fun _ => "a") 0 wStore 25).1.raw := by
  have h := batch_failure_isolation wFail (fun _ => "a") 0 wStore 25
    (by decide) (by decide)
  exact ⟨h.2.1 (wItem2, "a") (by decide) (by decide),
    h.2.2 (wItem1, "a") (by decide) (by decide),
    h.2.2 (wItem3, "a") (by decide) (by decide)⟩

/-- C5: in both the batch and the single-item execution, an item carries
status `processed` in the final store only if an analysis record
referencing its `post_id` is persisted in the final processed table — the
put-then-mark order means processing preserves the invariant "every
processed item has a persisted record". -/
theorem processed_status_implies_persisted_record
    (put_fail : AnalysisRecord → Bool) (uuids : Nat → String) (now : ℚ)
    (st : Stores) (N : Nat) (uuid pid : String)
    (hnodup : (st.raw.map rawKey).Nodup)
    (hinv : ∀ it ∈ st.raw, it.processing_status = "processed" →
      ∃ r ∈ st.processed, r.original_post_id = it.post_id) :
    (∀ it ∈ (process_batch_posts put_fail uuids now st N).1.raw,
      it.processing_status = "processed" →
      ∃ r ∈ (process_batch_posts put_fail uuids now st N).1.processed,
        r.original_post_id = it.post_id) ∧
    (∀ it ∈ (process_single_post put_fail uuid now st pid).1.raw,
      it.processing_status = "processed" →
      ∃ r ∈ (process_single_post put_fail uuid now st pid).1.processed,
        r.original_post_id = it.post_id) := by
  constructor
  · by_cases hne : fetchedRaw st N = []
    · unfold process_batch_posts
      rw [if_pos (by simp [hne])]
      exact hinv
    · rw [process_batch_posts_eq put_fail uuids now st N hnodup hne]
      dsimp only
      intro it hit hstatus
      rcases List.mem_map.mp hit with ⟨it0, hit0, rfl⟩
      unfold batchItemOutcome at hstatus ⊢
      cases hfind : (batchPairs uuids st N).find?
          (fun p => decide (rawKey p.1 = rawKey it0)) with
      | none =>
        rw [hfind] at hstatus
        dsimp only at hstatus ⊢
        rcases hinv it0 hit0 hstatus with ⟨r, hr, hrid⟩
        exact ⟨r, List.mem_append_left _ hr, hrid⟩
      | some p =>
        rw [hfind] at hstatus
        dsimp only at hstatus ⊢
        by_cases hok : itemOk put_fail now p = true
        · rw [if_pos hok] at hstatus ⊢
          refine ⟨mkAnalysisRecord p.1 p.2 now, List.mem_append_right _ ?_, ?_⟩
          · exact List.mem_map_of_mem _
              (List.mem_filter.mpr ⟨List.mem_of_find?_eq_some hfind, hok⟩)
          · have hkey : rawKey p.1 = rawKey it0 := by
              have := List.find?_some hfind
              simpa using this
            have hid : p.1.post_id = it0.post_id := congrArg Prod.fst hkey
            exact hid
        · rw [if_neg hok] at hstatus
          dsimp only [markError] at hstatus
          exact absurd hstatus (by decide)
  · unfold process_single_post
    split
    · exact hinv
    split
    · exact hinv
    rename_i post tail hfilter
    split
    · exact hinv
    rename_i pr tbl out hps
    have htbl : tbl = st.processed ++ [mkAnalysisRecord post uuid now] := by
      unfold process_post_sentiment at hps
      by_cases hf : put_fail (mkAnalysisRecord post uuid now) = true
      · rw [if_pos hf] at hps
        exact absurd hps (by simp)
      · rw [if_neg hf] at hps
        have := (Except.ok.injEq _ _).mp hps
        exact (congrArg Prod.fst this).symm
    subst htbl
    dsimp only
    intro it hit hstatus
    unfold update_raw_item at hit
    rcases List.mem_map.mp hit with ⟨it0, hit0, rfl⟩
    by_cases hkey : it0.post_id = post.post_id ∧
        it0.created_timestamp = post.created_timestamp
    · rw [if_pos hkey]
      refine ⟨mkAnalysisRecord post uuid now,
        List.mem_append_right _ (by simp), ?_⟩
      show post.post_id = (markProcessedSingle it0).post_id
      exact hkey.1.symm
    · rw [if_neg hkey] at hstatus ⊢
      rcases hinv it0 hit0 hstatus with ⟨r, hr, hrid⟩
      exact ⟨r, List.mem_append_left _ hr, hrid⟩

/-- C5 witness: on a concrete three-item store, after a batch run (with a
fault on `p2`) and a single run, every item marked `processed` has a
persisted analysis record for its `post_id`. -/
theorem processed_status_implies_persisted_record_witness :
    (∀ it ∈ (process_batch_posts wFail (fun _ => "a") 0 wStore 25).1.raw,
      it.processing_status = "processed" →
      ∃ r ∈ (process_batch_posts wFail (fun _ => "a") 0 wStore 25).1.processed,
        r.original_post_id = it.post_id) ∧
    (∀ it ∈ (process_single_post wFail "a" 0 wStore "p1").1.raw,
      it.processing_status = "processed" →
      ∃ r ∈ (process_single_post wFail "a" 0 wStore "p1").1.processed,
        r.original_post_id = it.post_id) :=
  processed_status_implies_persisted_record wFail (fun _ => "a") 0 wStore 25
    "a" "p1" (by decide) (by decide)

/-- C6 counterexample: the claim says every batch result (including the
empty-batch case) reports the attempted count and the list of created
analysis ids — but the empty-batch early return carries neither a
`total_found` nor an `analysis_ids` key. -/
theorem empty_batch_result_omits_total_found_cex :
    ((process_batch_posts (fun _ => false) (fun _ => "a1") 0 ⟨[], []⟩ 25).2).lookup
        "total_found" = none ∧
    ((process_batch_posts (fun _ => false) (fun _ => "a1") 0 ⟨[], []⟩ 25).2).lookup
        "analysis_ids" = none ∧
    ((process_batch_posts (fun _ => false) (fun _ => "a1") 0 ⟨[], []⟩ 25).2).lookup
        "processed_posts" = some (JVal.n 0) := by decide

/-- C6 (amended): `process_batch(limit=N)` fetches at most `N` raw items;
with `M` raw items in the store and `M < N` the fetch returns all `M`; a
non-empty batch result reports `processed_posts`, `analysis_ids` and
`total_found` (= the number fetched); the empty-batch result reports
`processed_posts = 0` and a message, omitting `total_found` and
`analysis_ids`. -/
theorem batch_fetch_bound_and_result_shape (put_fail : AnalysisRecord → Bool)
    (uuids : Nat → String) (now : ℚ) (st : Stores) (N : Nat) :
    (fetchedRaw st N).length ≤ N ∧
    ((st.raw.filter (fun it => it.processing_status == "raw")).length < N →
      (fetchedRaw st N).length =
        (st.raw.filter (fun it => it.processing_status == "raw")).length) ∧
    (fetchedRaw st N ≠ [] →
      ∃ c ids, (process_batch_posts put_fail uuids now st N).2 =
        [("processed_posts", JVal.n c), ("analysis_ids", JVal.arr ids),
         ("total_found", JVal.n (fetchedRaw st N).length)]) ∧
    (fetchedRaw st N = [] →
      process_batch_posts put_fail uuids now st N =
        (st, [("processed_posts", JVal.n 0),
              ("message", JVal.s "No unprocessed posts found")])) := by
  refine ⟨?_, ?_, ?_, ?_⟩
  · unfold fetchedRaw
    rw [List.length_take]
    exact min_le_left _ _
  · intro hM
    unfold fetchedRaw
    rw [List.length_take]
    exact min_eq_right (le_of_lt hM)
  · intro hne
    unfold process_batch_posts
    rw [if_neg (by simpa [List.isEmpty_iff] using hne)]
    exact ⟨_, _, rfl⟩
  · intro hempty
    unfold process_batch_posts
    rw [if_pos (by simp [hempty])]

/-- C6 witness: with two raw items and limit 25, the fetch returns both
and the result carries the three keys with `total_found = 2`. -/
theorem batch_fetch_bound_and_result_shape_witness :
    (fetchedRaw wStore 25).length ≤ 25 ∧
    (fetchedRaw wStore 25).length =
      (wStore.raw.filter (fun it => it.processing_status == "raw")).length ∧
    (∃ c ids, (process_batch_posts wFail (fun _ => "a") 0 wStore 25).2 =
      [("processed_posts", JVal.n c), ("analysis_ids", JVal.arr ids),
       ("total_found", JVal.n (fetchedRaw wStore 25).length)]) := by
  have h := batch_fetch_bound_and_result_shape wFail (fun _ => "a") 0 wStore 25
  exact ⟨h.1, h.2.1 (by decide), h.2.2.1 (by decide)⟩

/-- C7 counterexample: for a present item the single-item operation
returns `{processed_posts: 1, analysis_id}` — the claimed `sentiment` and
`confidence` keys are absent from the response. -/
theorem single_result_lacks_sentiment_cex :
    (((process_single_post (fun _ => false) "a9" 7 ⟨[exItem], []⟩
        "p1").2.toOption.getD []).lookup "sentiment" = none) ∧
    (((process_single_post (fun _ => false) "a9" 7 ⟨[exItem], []⟩
        "p1").2.toOption.getD []).lookup "confidence" = none) ∧
    (((process_single_post (fun _ => false) "a9" 7 ⟨[exItem], []⟩
        "p1").2.toOption.getD []).lookup "processed_posts" = some (JVal.n 1)) ∧
    (((process_single_post (fun _ => false) "a9" 7 ⟨[exItem], []⟩
        "p1").2.toOption.getD []).lookup "analysis_id" = some (JVal.s "a9")) := by
  decide

/-- C7 (amended): for a non-empty `item_id` absent from the store,
`process_single` fails (`ValueError: Post ... not found`) and performs no
update — the stores are returned unchanged; for a present item it runs the
same per-item path as the batch (build record, persist, mark processed)
and returns `{processed_posts: 1, analysis_id}` (without sentiment or
confidence fields). -/
theorem process_single_not_found_and_success_shape
    (put_fail : AnalysisRecord → Bool) (uuid : String) (now : ℚ)
    (st : Stores) (pid : String) :
    (pid ≠ "" → (∀ it ∈ st.raw, it.post_id ≠ pid) →
      process_single_post put_fail uuid now st pid =
        (st, Except.error ("Post " ++ pid ++ " not found in raw posts table"))) ∧
    (∀ post rest2, st.raw.filter (fun it => it.post_id == pid) = post :: rest2 →
      pid ≠ "" →
      put_fail (mkAnalysisRecord post uuid now) = false →
      process_single_post put_fail uuid now st pid =
        (⟨update_raw_item st.raw post.post_id post.created_timestamp
            markProcessedSingle,
          st.processed ++ [mkAnalysisRecord post uuid now]⟩,
         Except.ok [("processed_posts", JVal.n 1),
                    ("analysis_id", JVal.s uuid)])) := by
  constructor
  · intro hpid habsent
    unfold process_single_post
    rw [if_neg hpid]
    rw [List.filter_eq_nil_iff.mpr (fun it hit => by simp [habsent it hit])]
  · intro post rest2 hfilter hpid hfail
    unfold process_single_post
    rw [if_neg hpid]
    have hpps : process_post_sentiment put_fail post uuid now st.processed =
        Except.ok (st.processed ++ [mkAnalysisRecord post uuid now],
          { analysis_id := uuid,
            sentiment := (mkAnalysisRecord post uuid now).sentiment,
            confidence := (mkAnalysisRecord post uuid now).confidence_score }) := by
      unfold process_post_sentiment
      rw [if_neg (by simp [hfail])]
    simp only [hfilter, hpps]

/-! ## Normalizer lemmas (for C9)

The normalizer is not idempotent in general: a deletion pass can splice
the surrounding text into a new removable pattern (see the counterexample
below).  On inputs containing neither `*` nor `/`, the three removal
passes are the identity — no URL (`://`), mention (`/u/`, `/r/`) or bold
(`**`) pattern can occur — and lowercasing followed by whitespace collapse
is idempotent. -/

theorem toNat_pyLower_upper {c : Char} (h : 65 ≤ c.toNat ∧ c.toNat ≤ 90) :
    (pyLower c).toNat = c.toNat + 32 := by
  unfold pyLower
  rw [if_pos h]
  have hv : (c.toNat + 32).isValidChar := Or.inl (by omega)
  rw [Char.ofNat, dif_pos hv]
  simp [Char.ofNatAux, Char.toNat, UInt32.toNat, BitVec.toNat_ofNatLt]

theorem pyLower_of_not_upper {c : Char} (h : ¬(65 ≤ c.toNat ∧ c.toNat ≤ 90)) :
    pyLower c = c := by
  unfold pyLower
  rw [if_neg h]

theorem pyLower_idem (c : Char) : pyLower (pyLower c) = pyLower c := by
  by_cases hcond : 65 ≤ c.toNat ∧ c.toNat ≤ 90
  · have h1 : (pyLower c).toNat = c.toNat + 32 := toNat_pyLower_upper hcond
    exact pyLower_of_not_upper (by omega)
  · rw [pyLower_of_not_upper hcond]
    exact pyLower_of_not_upper hcond

theorem not_mem_map_pyLower {l : List Char} {d : Char} (hd : d.toNat < 65)
    (h : d ∉ l) : d ∉ l.map pyLower := by
  intro hc
  rcases List.mem_map.mp hc with ⟨c, hcl, heq⟩
  by_cases hcond : 65 ≤ c.toNat ∧ c.toNat ≤ 90
  · have htn : (pyLower c).toNat = c.toNat + 32 := toNat_pyLower_upper hcond
    rw [heq] at htn
    omega
  · rw [pyLower_of_not_upper hcond] at heq
    exact h (heq ▸ hcl)

theorem tryURL_eq_none {l : List Char} (h : '/' ∉ l) : tryURL l = none := by
  unfold tryURL
  rw [if_neg, if_neg]
  · intro hpre
    exact h ((List.isPrefixOf_iff_prefix.mp hpre).subset (by decide))
  · intro hpre
    exact h ((List.isPrefixOf_iff_prefix.mp hpre).subset (by decide))

theorem tryMention_eq_none (sig : Char) {l : List Char} (h : '/' ∉ l) :
    tryMention sig l = none := by
  unfold tryMention
  rw [if_neg]
  intro hpre
  exact h ((List.isPrefixOf_iff_prefix.mp hpre).subset (by simp))

theorem tryBold_eq_none {l : List Char} (h : '*' ∉ l) : tryBold l = none := by
  unfold tryBold
  rw [if_neg]
  intro hpre
  exact h ((List.isPrefixOf_iff_prefix.mp hpre).subset (by decide))

theorem stripURLsF_id : ∀ (fuel : Nat) (l : List Char), '/' ∉ l →
    stripURLsF fuel l = l := by
  intro fuel
  induction fuel with
  | zero => intro l _; rfl
  | succ n ih =>
    intro l h
    cases l with
    | nil => rfl
    | cons c cs =>
      have h2 : '/' ∉ cs := fun hc => h (List.mem_cons_of_mem _ hc)
      simp [stripURLsF, tryURL_eq_none h, ih cs h2]

theorem stripURLs_id {l : List Char} (h : '/' ∉ l) : stripURLs l = l :=
  stripURLsF_id _ _ h

theorem stripMentionF_id (sig : Char) : ∀ (fuel : Nat) (l : List Char),
    '/' ∉ l → stripMentionF sig fuel l = l := by
  intro fuel
  induction fuel with
  | zero => intro l _; rfl
  | succ n ih =>
    intro l h
    cases l with
    | nil => rfl
    | cons c cs =>
      have h2 : '/' ∉ cs := fun hc => h (List.mem_cons_of_mem _ hc)
      simp [stripMentionF, tryMention_eq_none sig h, ih cs h2]

theorem stripMention_id (sig : Char) {l : List Char} (h : '/' ∉ l) :
    stripMention sig l = l :=
  stripMentionF_id sig _ _ h

theorem stripBoldF_id : ∀ (fuel : Nat) (l : List Char), '*' ∉ l →
    stripBoldF fuel l = l := by
  intro fuel
  induction fuel with
  | zero => intro l _; rfl
  | succ n ih =>
    intro l h
    cases l with
    | nil => rfl
    | cons c cs =>
      have h2 : '*' ∉ cs := fun hc => h (List.mem_cons_of_mem _ hc)
      simp [stripBoldF, tryBold_eq_none h, ih cs h2]

theorem stripBold_id {l : List Char} (h : '*' ∉ l) : stripBold l = l :=
  stripBoldF_id _ _ h

theorem pyWordsF_nil (fuel : Nat) : pyWordsF fuel [] = [] := by
  cases fuel <;> rfl

theorem mem_pyWordsF : ∀ (fuel : Nat) (l w : List Char), w ∈ pyWordsF fuel l →
    w ≠ [] ∧ ∀ c ∈ w, isPySpace c = false := by
  intro fuel
  induction fuel with
  | zero =>
    intro l w h
    simp [pyWordsF] at h
  | succ n ih =>
    intro l w h
    cases l with
    | nil => simp [pyWordsF] at h
    | cons c cs =>
      cases hc : isPySpace c with
      | true =>
        rw [pyWordsF, if_pos hc] at h
        exact ih cs w h
      | false =>
        rw [pyWordsF, if_neg (by simp [hc])] at h
        rcases List.mem_cons.mp h with rfl | hmem
        · refine ⟨by simp, ?_⟩
          intro d hd
          rcases List.mem_cons.mp hd with rfl | hd2
          · exact hc
          · have := List.mem_takeWhile_imp hd2
            simpa using this
        · exact ih _ w hmem

theorem mem_of_mem_pyWordsF : ∀ (fuel : Nat) (l w : List Char),
    w ∈ pyWordsF fuel l → ∀ c ∈ w, c ∈ l := by
  intro fuel
  induction fuel with
  | zero =>
    intro l w h
    simp [pyWordsF] at h
  | succ n ih =>
    intro l w h c hcw
    cases l with
    | nil => simp [pyWordsF] at h
    | cons a cs =>
      cases ha : isPySpace a with
      | true =>
        rw [pyWordsF, if_pos ha] at h
        exact List.mem_cons_of_mem _ (ih cs w h c hcw)
      | false =>
        rw [pyWordsF, if_neg (by simp [ha])] at h
        rcases List.mem_cons.mp h with rfl | hmem
        · rcases List.mem_cons.mp hcw with rfl | hc2
          · exact List.mem_cons_self _ _
          · exact List.mem_cons_of_mem _
              ((List.takeWhile_prefix _).subset hc2)
        · exact List.mem_cons_of_mem _
            (ih _ w hmem c hcw |> fun hx => (List.dropWhile_sublist _).subset hx)

theorem mem_joinWords : ∀ (ws : List (List Char)) (c : Char),
    c ∈ joinWords ws → c = ' ' ∨ ∃ w ∈ ws, c ∈ w := by
  intro ws
  induction ws with
  | nil =>
    intro c hc
    simp [joinWords] at hc
  | cons w tail ih =>
    cases tail with
    | nil =>
      intro c hc
      exact Or.inr ⟨w, by simp, by simpa [joinWords] using hc⟩
    | cons w2 ws2 =>
      intro c hc
      rw [joinWords] at hc
      rcases List.mem_append.mp hc with h1 | h1
      · exact Or.inr ⟨w, by simp, h1⟩
      · rcases List.mem_cons.mp h1 with rfl | h2
        · exact Or.inl rfl
        · rcases ih c h2 with h3 | ⟨w3, hw3, hc3⟩
          · exact Or.inl h3
          · exact Or.inr ⟨w3, List.mem_cons_of_mem _ hw3, hc3⟩

theorem takeWhile_append_all {p : Char → Bool} :
    ∀ {a b : List Char}, (∀ c ∈ a, p c = true) →
    (b = [] ∨ ∃ c bs, b = c :: bs ∧ p c = false) →
    ((a ++ b).takeWhile p = a ∧ (a ++ b).dropWhile p = b) := by
  intro a
  induction a with
  | nil =>
    intro b _ hb
    rcases hb with rfl | ⟨c, bs, rfl, hc⟩
    · exact ⟨rfl, rfl⟩
    · constructor
      · rw [List.nil_append, List.takeWhile_cons_of_neg (by simp [hc])]
      · rw [List.nil_append, List.dropWhile_cons_of_neg (by simp [hc])]
  | cons x a2 ih =>
    intro b ha hb
    have hx : p x = true := ha x (by simp)
    have ha2 : ∀ c ∈ a2, p c = true := fun c hc => ha c (List.mem_cons_of_mem _ hc)
    obtain ⟨ht, hd⟩ := ih ha2 hb
    constructor
    · rw [List.cons_append, List.takeWhile_cons_of_pos hx, ht]
    · rw [List.cons_append, List.dropWhile_cons_of_pos hx, hd]

theorem pyWordsF_word_step (fuel : Nat) (w rest : List Char) (hw : w ≠ [])
    (hns : ∀ c ∈ w, isPySpace c = false)
    (hrest : rest = [] ∨ ∃ c r2, rest = c :: r2 ∧ isPySpace c = true) :
    pyWordsF (fuel + 1) (w ++ rest) = w :: pyWordsF fuel rest := by
  cases w with
  | nil => exact absurd rfl hw
  | cons c w2 =>
    have hc : isPySpace c = false := hns c (by simp)
    have hw2 : ∀ d ∈ w2, (fun d => !isPySpace d) d = true := by
      intro d hd
      simp [hns d (List.mem_cons_of_mem _ hd)]
    have hrest2 : rest = [] ∨ ∃ d bs, rest = d :: bs ∧
        (fun d => !isPySpace d) d = false := by
      rcases hrest with rfl | ⟨d, r2, rfl, hd⟩
      · exact Or.inl rfl
      · exact Or.inr ⟨d, r2, rfl, by simp [hd]⟩
    obtain ⟨ht, hd⟩ := takeWhile_append_all hw2 hrest2
    rw [List.cons_append, pyWordsF, if_neg (by simp [hc]), ht, hd]

theorem pyWords_join : ∀ (ws : List (List Char)) (fuel : Nat),
    (∀ w ∈ ws, w ≠ [] ∧ ∀ c ∈ w, isPySpace c = false) →
    (joinWords ws).length ≤ fuel →
    pyWordsF fuel (joinWords ws) = ws := by
  intro ws
  induction ws with
  | nil =>
    intro fuel _ _
    simp [joinWords, pyWordsF_nil]
  | cons w tail ih =>
    cases tail with
    | nil =>
      intro fuel hgood hlen
      obtain ⟨hw, hns⟩ := hgood w (by simp)
      rw [show joinWords [w] = w from rfl] at hlen ⊢
      cases fuel with
      | zero =>
        cases w with
        | nil => exact absurd rfl hw
        | cons c w2 => simp at hlen
      | succ n =>
        have := pyWordsF_word_step n w [] hw hns (Or.inl rfl)
        simpa [pyWordsF_nil] using this
    | cons w2 ws2 =>
      intro fuel hgood hlen
      obtain ⟨hw, hns⟩ := hgood w (by simp)
      have hwlen : 1 ≤ w.length := by
        cases w with
        | nil => exact absurd rfl hw
        | cons c w2 => simp
      rw [show joinWords (w :: w2 :: ws2) = w ++ ' ' :: joinWords (w2 :: ws2)
        from rfl] at hlen ⊢
      have hlen2 : w.length + ((joinWords (w2 :: ws2)).length + 1) ≤ fuel := by
        simpa [List.length_append] using hlen
      cases fuel with
      | zero => omega
      | succ n =>
        rw [pyWordsF_word_step n w (' ' :: joinWords (w2 :: ws2)) hw hns
          (Or.inr ⟨' ', joinWords (w2 :: ws2), rfl, by decide⟩)]
        cases n with
        | zero => omega
        | succ m =>
          rw [pyWordsF, if_pos (by decide : isPySpace ' ' = true)]
          rw [ih m (fun w' hw' => hgood w' (List.mem_cons_of_mem _ hw'))
            (by omega)]

theorem collapseWs_idem (l : List Char) : collapseWs (collapseWs l) = collapseWs l := by
  unfold collapseWs
  exact congrArg joinWords
    (pyWords_join (pyWords l) _ (fun w hw => mem_pyWordsF _ _ w hw) (le_refl _))

theorem mem_collapseWs {l : List Char} {c : Char} (h : c ∈ collapseWs l) :
    c = ' ' ∨ c ∈ l := by
  unfold collapseWs at h
  rcases mem_joinWords _ _ h with h1 | ⟨w, hw, hc⟩
  · exact Or.inl h1
  · exact Or.inr (mem_of_mem_pyWordsF _ _ _ hw _ hc)

theorem map_pyLower_collapse_fix (l : List Char) :
    (collapseWs (l.map pyLower)).map pyLower = collapseWs (l.map pyLower) := by
  have h : ∀ c ∈ collapseWs (l.map pyLower), pyLower c = c := by
    intro c hc
    rcases mem_collapseWs hc with rfl | hmem
    · decide
    · rcases List.mem_map.mp hmem with ⟨c0, _, rfl⟩
      exact pyLower_idem c0
  calc (collapseWs (l.map pyLower)).map pyLower
      = (collapseWs (l.map pyLower)).map (fun c => c) := List.map_congr_left h
    _ = collapseWs (l.map pyLower) := List.map_id' _

/-! ## Claim theorems: the normalizer (C9) -/

/-- C9 counterexample: the Text Normalizer is not idempotent — on
`"htt**x**p://a"` the bold-span removal splices the input into
`"http://a"`, which only a second pass's URL removal deletes. -/
theorem normalize_not_idempotent_cex :
    preprocess_text (preprocess_text "htt**x**p://a") ≠
      preprocess_text "htt**x**p://a" := by decide

/-- C9 (amended): the normalizer is a pure total function returning `""`
on `""`; it is idempotent on every input containing neither `*` nor `/`
(with those characters a removal pass can splice surrounding text into a
new URL/mention/bold pattern that only the next pass removes). -/
theorem normalize_empty_and_idempotent_star_slash_free :
    preprocess_text "" = "" ∧
    ∀ s : String, '*' ∉ s.data → '/' ∉ s.data →
      preprocess_text (preprocess_text s) = preprocess_text s := by
  refine ⟨rfl, ?_⟩
  intro s hstar hslash
  by_cases hs : s = ""
  · rw [hs]
    decide
  · have hlstar : '*' ∉ s.data.map pyLower :=
      not_mem_map_pyLower (by decide) hstar
    have hlslash : '/' ∉ s.data.map pyLower :=
      not_mem_map_pyLower (by decide) hslash
    have hpass : preprocess_text s = String.mk (collapseWs (s.data.map pyLower)) := by
      unfold preprocess_text
      rw [if_neg hs, stripURLs_id hlslash, stripMention_id 'u' hlslash,
        stripMention_id 'r' hlslash, stripBold_id hlstar]
    by_cases hts : String.mk (collapseWs (s.data.map pyLower)) = ""
    · rw [hpass, hts]
      rfl
    · rw [hpass]
      have htstar : '*' ∉ collapseWs (s.data.map pyLower) := by
        intro hc
        rcases mem_collapseWs hc with he | hmem
        · exact absurd he (by decide)
        · exact hlstar hmem
      have htslash : '/' ∉ collapseWs (s.data.map pyLower) := by
        intro hc
        rcases mem_collapseWs hc with he | hmem
        · exact absurd he (by decide)
        · exact hlslash hmem
      unfold preprocess_text
      rw [if_neg hts]
      rw [show (String.mk (collapseWs (s.data.map pyLower))).data =
        collapseWs (s.data.map pyLower) from rfl]
      rw [map_pyLower_collapse_fix, stripURLs_id htslash,
        stripMention_id 'u' htslash, stripMention_id 'r' htslash,
        stripBold_id htstar]
      exact congrArg String.mk (collapseWs_idem _)

end Feedback
